import Mathlib

/-!
Verification of the deployd-fork request-processing core against its
natural-language specification.  The definitions below are shallow embeddings
of the JavaScript source: `lib/router.js`, `lib/context.js`, `lib/doh.js`,
the script sandbox (`Script` class) and the session registry
(`SessionStore` / `Session`).  Machine arithmetic is modeled with `Nat`/`Int`
(JS numbers on the relevant ranges are exact integers), fallible code with
`Option`/`Except`, and mutable state with explicit state passing.
-/

namespace Deployd

/-! ## Router resource matching (`lib/router.js`)

`Router.generateRegex` builds `^<escaped path>(?:[/?].*)?$` from a resource's
base path, escaping with `path.replace(/[-[\]{}()+?.,\\^$|#\s]/g, '\\$&')`.
Note the escape class does not contain `*`, so a literal `*` in a base path
survives as a regex quantifier.  We model the escaping, the tokenisation the
JS regex parser performs on the escaped pattern, and the matching semantics of
the resulting anchored regex (JS `.` without the `s` flag does not match line
terminators). -/

/-- Characters matched by JS regex `\s`. -/
def jsWhitespace (c : Char) : Bool :=
  c = ' ' || c = '\t' || c = '\n' || c.val = 0x0b || c.val = 0x0c || c = '\r' ||
  c.val = 0xa0 || c.val = 0x1680 || (0x2000 ≤ c.val && c.val ≤ 0x200a) ||
  c.val = 0x2028 || c.val = 0x2029 || c.val = 0x202f || c.val = 0x205f ||
  c.val = 0x3000 || c.val = 0xfeff

/-- The character class `[-[\]{}()+?.,\\^$|#\s]` used by `generateRegex` to
escape a base path.  `*` is (notably) absent. -/
def regexSpecial (c : Char) : Bool :=
  c = '-' || c = '[' || c = ']' || c.val = 0x7b || c.val = 0x7d ||
  c = '(' || c = ')' || c = '+' || c = '?' || c = '.' || c = ',' ||
  c = '\\' || c = '^' || c = '$' || c = '|' || c = '#' || jsWhitespace c

/-- `resourcePath.replace(/[-[\]{}()+?.,\\^$|#\s]/g, '\\$&')`. -/
def escapeRegex : List Char → List Char
  | [] => []
  | c :: cs => (if regexSpecial c then ['\\', c] else [c]) ++ escapeRegex cs

/-- A token of the regex source between the `^` anchor and the
`(?:[/?].*)?$` suffix: a (possibly escaped) character, or a `*` quantifier. -/
inductive RegexTok where
  | ch (c : Char)
  | star
  deriving Repr, DecidableEq

/-- How the JS regex parser reads the escaped pattern: `\c` is the literal
`c`, a bare `*` is a quantifier, anything else is a literal. -/
def lexPattern : List Char → List RegexTok
  | [] => []
  | c :: cs =>
    if c = '\\' then
      match cs with
      | [] => []
      | d :: ds => .ch d :: lexPattern ds
    else if c = '*' then .star :: lexPattern cs
    else .ch c :: lexPattern cs

/-- An atom of the compiled pattern: a literal character, or a starred
(zero-or-more) character. -/
inductive RegexAtom where
  | lit (c : Char)
  | star (c : Char)
  deriving Repr, DecidableEq

/-- Attach each `*` quantifier to the preceding single-character atom.  A `*`
with nothing before it cannot arise from escaping a path that JS accepts as a
pattern; such a stray token is dropped. -/
def groupAtoms : List RegexTok → List RegexAtom
  | [] => []
  | .star :: ts => groupAtoms ts
  | .ch c :: [] => [.lit c]
  | .ch c :: .star :: ts2 => .star c :: groupAtoms ts2
  | .ch c :: .ch d :: ts2 => .lit c :: groupAtoms (.ch d :: ts2)

/-- JS `.` without the `s` flag: any character except a line terminator. -/
def jsDot (c : Char) : Bool :=
  !(c = '\n' || c = '\r' || c.val = 0x2028 || c.val = 0x2029)

/-- What the suffix `(?:[/?].*)?$` accepts: the end of the input, or a `/` or
`?` followed by non-line-terminator characters up to the end. -/
def sepTail : List Char → Bool
  | [] => true
  | c :: cs => (c = '/' || c = '?') && cs.all jsDot

/-- Matching `c*` then continuing with `k`: zero or more copies of `c` are
consumed before `k` applies. -/
def starMatch (c : Char) (k : List Char → Bool) : List Char → Bool
  | [] => k []
  | u :: us => k (u :: us) || (c = u && starMatch c k us)

/-- The anchored regex `^<atoms>(?:[/?].*)?$` applied to the input. -/
def matchFrom : List RegexAtom → List Char → Bool
  | [], cs => sepTail cs
  | .lit c :: as, cs =>
    match cs with
    | [] => false
    | u :: us => c = u && matchFrom as us
  | .star c :: as, cs => starMatch c (matchFrom as) cs

/-- `resourcePath && resourcePath !== '/' ? resourcePath : ''` (the falsy
empty path and the bare root path both normalise to the empty key). -/
def regexKey (p : String) : String := if p = "" || p = "/" then "" else p

/-- The atoms of `generateRegex(resourcePath)`. -/
def pathAtoms (p : String) : List RegexAtom :=
  groupAtoms (lexPattern (escapeRegex (regexKey p).toList))

/-- `this.generateRegex(resource.path).test(url)` (the per-path regex cache in
`generateRegex` is semantically transparent: the same key always yields the
same regex). -/
def pathMatches (p : String) (url : String) : Bool :=
  matchFrom (pathAtoms p) url.toList

/-- A registered resource, as the router sees it for matching purposes. -/
structure Resource where
  path : String
  deriving Repr, DecidableEq

/-- `specificness`: `resource.path.split('/').length` with `''`/`'/'` counting
as zero segments.  A split of a non-empty string has one more field than it
has separators. -/
def specificness (r : Resource) : Nat :=
  if r.path = "" || r.path = "/" then 0
  else (r.path.toList.countP (fun c => c = '/')) + 1

/-- Stable insertion keeping descending `specificness`: the inserted element
precedes the first element whose specificness does not exceed it.  Elements
already in the list keep their relative order. -/
def insertBySpec (r : Resource) : List Resource → List Resource
  | [] => [r]
  | x :: xs =>
    if specificness x ≤ specificness r then r :: x :: xs
    else x :: insertBySpec r xs

/-- The stable descending sort performed by
`matched.sort((a, b) => specificness(b) - specificness(a))`
(`Array.prototype.sort` is stable). -/
def sortBySpec : List Resource → List Resource
  | [] => []
  | x :: xs => insertBySpec x (sortBySpec xs)

/-- The cache-miss computation of `Router.matchResources`: filter the
registered resources through the generated regex and sort them by descending
specificness (early return of `[]` for an empty resource list coincides with
the general formula). -/
def matchResourcesPure (resources : List Resource) (url : String) : List Resource :=
  sortBySpec (resources.filter (fun r => pathMatches r.path url))

/-- Modelled from the claim: a URL matches a base path under the literal
reading of `^base(?:[/?].*)?$` — the URL equals the (normalised) base path, or
continues it with `/` or `?` followed by non-line-terminator characters. -/
def litMatch : List Char → List Char → Bool
  | [], us => sepTail us
  | _ :: _, [] => false
  | k :: ks, u :: us => k = u && litMatch ks us

/-- Modelled from the claim: the claimed matching semantics, with the code's
`''`/`'/'` base-path normalisation. -/
def claimMatches (p url : String) : Bool :=
  litMatch (regexKey p).toList url.toList

/-! ## Router result cache (`Router.matchResources` / constructor)

`matchResources` keeps a `Map` from URL to the computed candidate list
(`routeCache`, insertion-ordered, looked up by string key), clears it whenever
the resource count changes (`lastResourceUpdate`), and only inserts while the
map holds fewer than 1000 entries. -/

structure RouterState where
  routeCache : List (String × List Resource)
  lastResourceUpdate : Nat
  deriving Repr, DecidableEq

/-- The freshly constructed router: empty cache, `lastResourceUpdate = 0`. -/
def RouterState.init : RouterState := ⟨[], 0⟩

/-- `Map.get`: the value stored under a string key. -/
def cacheLookup : List (String × List Resource) → String → Option (List Resource)
  | [], _ => none
  | (u, v) :: rest, url => if u = url then some v else cacheLookup rest url

/-- One `matchResources(url)` call: early exit on an empty resource list,
cache invalidation when the resource count changed, cache hit, or fresh
computation with bounded insertion (`Map.set` on an absent key appends). -/
def matchResourcesStep (resources : List Resource) (st : RouterState) (url : String) :
    List Resource × RouterState :=
  if resources.length = 0 then ([], st)
  else
    let st1 := if st.lastResourceUpdate ≠ resources.length
      then RouterState.mk [] resources.length else st
    match cacheLookup st1.routeCache url with
    | some v => (v, st1)
    | none =>
      let result := matchResourcesPure resources url
      if st1.routeCache.length < 1000 then
        (result, RouterState.mk (st1.routeCache ++ [(url, result)]) st1.lastResourceUpdate)
      else (result, st1)

/-- A sequence of `matchResources` calls against a fixed resources array:
the returned lists in order, and the final router state. -/
def runMatches (resources : List Resource) :
    RouterState → List String → List (List Resource) × RouterState
  | st, [] => ([], st)
  | st, url :: urls =>
    let r := matchResourcesStep resources st url
    let rs := runMatches resources r.2 urls
    (r.1 :: rs.1, rs.2)

/-! ## Thrown values and the error responder (`lib/doh.js`, `Router.route`)

A JS value thrown by a handler (or carried by a promise rejection) is modeled
by whether it is an `Error` instance plus the `message`/`statusCode`/`status`
fields the router and responder read.  Absent numeric fields are `none`; JS
`||` treats a present `0` as falsy. -/

structure Thrown where
  isError : Bool
  message : String
  statusCode : Option Int
  status : Option Int
  deriving Repr, DecidableEq

/-- JS truthiness of an optional numeric field (a present `0` is falsy). -/
def truthyNum : Option Int → Option Int
  | none => none
  | some n => if n = 0 then none else some n

/-- `a || b` on optional numeric fields. -/
def jsOrNum (a b : Option Int) : Option Int :=
  match truthyNum a with
  | some n => some n
  | none => truthyNum b

/-- `err.statusCode || err.status` as read by `normalizeStatus`. -/
def effStatus (v : Thrown) : Option Int := jsOrNum v.statusCode v.status

/-- doh's `normalizeStatus`: the error's own code when it is a number in
`[400, 600)`, else 500. -/
def normalizeStatus (v : Thrown) : Int :=
  match effStatus v with
  | some n => if 400 ≤ n ∧ n < 600 then n else 500
  | none => 500

/-- The status `doh.createResponder()` writes given the `res.statusCode`
already in place when it runs: a normalized 500 defers to an existing
4xx/5xx `res.statusCode`. -/
def dohStatus (v : Thrown) (resStatusCode : Int) : Int :=
  let st := normalizeStatus v
  if st = 500 ∧ 400 ≤ resStatusCode ∧ resStatusCode < 600 then resStatusCode else st

/-- The `catch` block of `Router.route`:
`err instanceof Error ? err : { message: String(err || '...'), statusCode: 500 }`.
`String` of a plain object with the default `toString` is `"[object Object]"`. -/
def wrapThrown (v : Thrown) : Thrown :=
  if v.isError then v
  else { isError := false, message := "[object Object]", statusCode := some 500, status := none }

/-- `res.statusCode = wrapped.statusCode || 500` (set just before the
responder is invoked). -/
def catchStatusCode (w : Thrown) : Int :=
  match truthyNum w.statusCode with
  | some n => n
  | none => 500

/-- How a candidate settles its turn: `ctx.done` succeeded, `next()` was
called, or a synchronous throw / asynchronous rejection escaped (both reject
the awaited per-candidate promise and reach `route`'s `catch`). -/
inductive HandlerOutcome where
  | finalize
  | next
  | throwErr (v : Thrown)
  deriving Repr, DecidableEq

inductive RouteResult where
  | handled
  | errorResponse (status : Int) (wrapped : Thrown)
  | notFound
  deriving Repr, DecidableEq

/-- The candidate loop of `Router.route`: candidates are tried strictly in
order; `next` moves on; a throw/rejection escapes the loop into the `catch`
block, which wraps the value and hands it to the error responder.  Returns
the outcome together with how many candidates were invoked. -/
def routeCandidates : List HandlerOutcome → RouteResult × Nat
  | [] => (.notFound, 0)
  | .finalize :: _ => (.handled, 1)
  | .next :: rest =>
    let r := routeCandidates rest
    (r.1, r.2 + 1)
  | .throwErr v :: _ =>
    let w := wrapThrown v
    (.errorResponse (dohStatus w (catchStatusCode w)) w, 1)

/-- Modelled from the amended claim: the status reported for a routing error
is the thrown value's own `statusCode`-or-`status` code when the value is an
Error instance and that code lies in `[400, 600)`, and 500 in every other
case (in particular for every non-Error thrown value). -/
def amendedStatus (v : Thrown) : Int :=
  if v.isError then
    match jsOrNum v.statusCode v.status with
    | some n => if 400 ≤ n ∧ n < 600 then n else 500
    | none => 500
  else 500

/-! ## Request context completion (`lib/context.js`)

The response handle carries the fields `Context.done` and the responder read
and write.  Node sets `finished`/`writableEnded` synchronously when `end()`
is called; both are modeled by the single flag `ended`. -/

structure ResState where
  statusCode : Int
  headers : List (String × String)
  body : Option String
  ended : Bool
  headersSent : Bool
  deriving Repr, DecidableEq

def getHeader : List (String × String) → String → Option String
  | [], _ => none
  | (k, v) :: rest, key => if k = key then some v else getHeader rest key

/-- `res.setHeader(k, v)`: overwrite an existing header or append. -/
def setHeader (hs : List (String × String)) (k v : String) : List (String × String) :=
  if (getHeader hs k).isSome then hs.map (fun p => if p.1 = k then (k, v) else p)
  else hs ++ [(k, v)]

/-- `res.end(body)`: writing after the end changes nothing (Node raises an
asynchronous write-after-end error); otherwise the body is written, headers
are flushed and the response is finished. -/
def resEnd (res : ResState) (b : Option String) : ResState :=
  if res.ended then res
  else { res with body := b, ended := true, headersSent := true }

/-- `JSON.stringify(normalizePayload(err))`: a deterministic JSON rendering
of the error, abstracted to the message it is built from (its exact text
plays no role in any claim). -/
def dohBody (v : Thrown) : String := v.message

/-- `doh.createResponder()` acting on a response: returns untouched when the
response is already ended; otherwise writes the status (unless headers are
already sent) and a JSON content type, then ends with the payload body. -/
def dohRespond (v : Thrown) (res : ResState) : ResState :=
  if res.ended then res
  else if res.headersSent then resEnd res (some (dohBody v))
  else
    resEnd
      { res with statusCode := dohStatus v res.statusCode,
                 headers := setHeader res.headers "Content-Type" "application/json; charset=utf-8" }
      (some (dohBody v))

/-- The payload handed to `Context.done`: an object/array together with the
result of its cycle-dropping `JSON.stringify` (`none` when serialization
itself throws), or a non-object rendered as text (`''` for a falsy value,
covering `undefined`). -/
inductive DonePayload where
  | obj (serialized : Option String)
  | prim (s : String)
  deriving Repr, DecidableEq

/-- One conditional header write of `Context._setHeaders`: only when headers
are not sent and the header is not already present. -/
def setIfAbsent (res : ResState) (k v : String) : ResState :=
  if !res.headersSent && (getHeader res.headers k).isNone then
    { res with headers := setHeader res.headers k v }
  else res

/-- `Context._setHeaders(statusCode, body, contentType)`. -/
def ctxSetHeaders (statusCode : Int) (body : String) (contentType : String)
    (res : ResState) : ResState :=
  let res1 := setIfAbsent res "Cache-Control" "no-cache, no-store, must-revalidate"
  let res2 := setIfAbsent res1 "Pragma" "no-cache"
  let res3 := setIfAbsent res2 "Expires" "0"
  let res4 := setIfAbsent res3 "Content-Type" contentType
  if !(statusCode = 204 || statusCode = 304) && body ≠ "" then
    setIfAbsent res4 "Content-Length" (toString body.utf8ByteSize)
  else res4

/-- `JSON.stringify({ message: 'Internal Server Error' })`. -/
def internalServerErrorBody : String := "\x7b\"message\":\"Internal Server Error\"\x7d"

/-- `Context.done(err, response)`: no-op when the response is finished;
an error is routed through the responder with `err.statusCode || 400`;
a successful payload is serialized (forcing 500 and a generic body when
serialization throws — note the `statusCode` local keeps its earlier value
there), headers are set, and the response is ended, bodiless for 204/304. -/
def ctxDone (err : Option Thrown) (response : DonePayload) (res : ResState) : ResState :=
  if res.ended then res
  else
    let statusCode := if res.statusCode = 0 then 200 else res.statusCode
    match err with
    | some e =>
      let st := match truthyNum e.statusCode with | some n => n | none => 400
      dohRespond e { res with statusCode := st }
    | none =>
      match response with
      | .obj (some s) =>
        let res1 := ctxSetHeaders statusCode s "application/json" res
        if statusCode = 204 || statusCode = 304 then resEnd res1 none
        else resEnd res1 (some s)
      | .obj none =>
        let res0 := { res with statusCode := 500 }
        let res1 := ctxSetHeaders statusCode internalServerErrorBody "application/json" res0
        if statusCode = 204 || statusCode = 304 then resEnd res1 none
        else resEnd res1 (some internalServerErrorBody)
      | .prim s =>
        let res1 := ctxSetHeaders statusCode s "text/html; charset=utf-8" res
        if statusCode = 204 || statusCode = 304 then resEnd res1 none
        else resEnd res1 (some s)

/-! ## Script sandbox (`Script` class, `lib/script.js`)

### Compilation cache (`constructor` / `_createFunction` / `runWithContext`)

`this.getFunction = _.memoize(this._createFunction.bind(this))`.  lodash's
`memoize` uses the first argument as the key of a `MapCache`; an array key is
compared by object identity (`Map` / SameValueZero), not by contents.  Every
`runWithContext` call allocates a fresh `functionArgs` array via
`Object.keys(context).filter(key => key !== 'this')`.  Array identities are
modeled as allocation ids (`nextRef`). -/

structure ScriptCacheState where
  cache : List (Nat × List String)
  nextRef : Nat
  compileCount : Nat
  deriving Repr, DecidableEq

/-- A freshly constructed `Script`: empty memoize cache, nothing compiled. -/
def ScriptCacheState.init : ScriptCacheState := ⟨[], 0, 0⟩

/-- `MapCache.has` on an array key: identity comparison. -/
def memoHas (cache : List (Nat × List String)) (ref : Nat) : Bool :=
  cache.any (fun e => e.1 = ref)

/-- One `runWithContext(context)` call: a fresh `functionArgs` array is
allocated, `getFunction(functionArgs)` consults the memoize cache under that
array's identity and calls `_createFunction` (counted by `compileCount`) on a
miss, storing the compiled function under the same identity. -/
def runWithContextCompile (contextKeys : List String) (st : ScriptCacheState) :
    ScriptCacheState :=
  let functionArgs := contextKeys.filter (fun k => k ≠ "this")
  let ref := st.nextRef
  if memoHas st.cache ref then
    { st with nextRef := ref + 1 }
  else
    ⟨st.cache ++ [(ref, functionArgs)], ref + 1, st.compileCount + 1⟩

/-!
### `run`, cancellation and completion
(`Script.run`, `Script._setupDomainHandlers`, `Script._cancel*`)

A thrown JS value on these paths is a `ReferenceError` (an identifier failed
to resolve), a `TypeError` (a non-function was called), or the plain
error object the cancel helpers synthesize. -/

inductive JsErr where
  | refErr (name : String)
  | typeErr (msg : String)
  | appErr (message : String) (statusCode : Option Nat)
  deriving Repr, DecidableEq

/-- The `statusCode` carried by a thrown value. -/
def JsErr.statusOf : JsErr → Option Nat
  | .appErr _ s => s
  | _ => none

/-- The methods defined on the `Script` class (there is no `done`). -/
def scriptMethods : List String :=
  ["constructor", "_createFunction", "runWithContext", "run",
   "_setupDomainHandlers", "_cancel", "_cancelIf", "_cancelUnless", "_isMe",
   "_emit", "_wrapError", "_isPromise", "_wrapPromise", "_wrapAsyncFunction",
   "_wrapAsyncFunctions", "load"]

/-- The `msg` argument of the cancel helpers: a plain message string, an
`Error` instance, or a duck-typed object carrying `message` and
`status`/`statusCode` fields (a falsy/empty message makes the object fall
through to the string branch; that degenerate case keeps its message text
here). -/
inductive CancelMsg where
  | str (s : String)
  | errObj (e : JsErr)
  | obj (message : String) (status : Option Nat) (statusCode : Option Nat)
  deriving Repr, DecidableEq

/-- JS `a || b` on optional `Nat` status fields (`0` falsy). -/
def jsOrStatus (a b : Option Nat) : Option Nat :=
  match a with
  | some n => if n = 0 then (match b with | some 0 => none | o => o) else some n
  | none => match b with | some 0 => none | o => o

/-- The error value `_cancel` synthesizes from its arguments (the three
branches of `Script._cancel`). -/
def synthCancelErr (msg : CancelMsg) (status : Option Nat) : JsErr :=
  match msg with
  | .errObj e => e
  | .obj m st sc =>
    if m ≠ "" ∧ (jsOrStatus st sc).isSome then .appErr m (jsOrStatus st sc)
    else .appErr m status
  | .str s => .appErr s status

/-- What actually propagates out of `Script._cancel`: after building `err`
the method evaluates `this.done(err)`, but `Script` has no `done` method
(see `scriptMethods`), so the call site throws a TypeError before the
`throw err` statement is reached. -/
def cancelThrown (msg : CancelMsg) (status : Option Nat) : JsErr :=
  let err := synthCancelErr msg status
  if scriptMethods.contains "done" then err
  else .typeErr "this.done is not a function"

/-- A statement of a hook body as the sandbox runs it: an ordinary statement
(identified by an id, recorded when it executes), one of the cancel helpers,
or a plain `throw`. -/
inductive HookStmt where
  | basic (id : Nat)
  | cancelStmt (msg : CancelMsg) (status : Option Nat)
  | cancelIf (cond : Bool) (msg : CancelMsg) (status : Option Nat)
  | cancelUnless (cond : Bool) (msg : CancelMsg) (status : Option Nat)
  | throwStmt (e : JsErr)
  deriving Repr, DecidableEq

/-- The synchronous run of the hook body: the ids of the statements that
executed, and the value thrown out of the body, if any (a throw aborts the
remainder of the body). -/
def execHook : List HookStmt → List Nat × Option JsErr
  | [] => ([], none)
  | .basic i :: rest =>
    let r := execHook rest
    (i :: r.1, r.2)
  | .cancelStmt m st :: _ => ([], some (cancelThrown m st))
  | .cancelIf c m st :: rest =>
    if c then ([], some (cancelThrown m st)) else execHook rest
  | .cancelUnless c m st :: rest =>
    if !c then ([], some (cancelThrown m st)) else execHook rest
  | .throwStmt e :: _ => ([], some e)

/-- The domain object handed to `run`: the names of the async domain
functions it carries (their behaviour is never reached, see below). -/
structure Domain where
  fnNames : List String
  deriving Repr, DecidableEq

/-- The identifiers in scope inside `Script._setupDomainHandlers`: its
parameters and `this`, plus the module-level bindings of `lib/script.js` and
the ambient CommonJS/Node names.  `fn` is a local of `run`, not among them. -/
def setupDomainHandlersScope : List String :=
  ["domain", "scriptContext", "events", "doneCallback", "this",
   "fs", "path", "util", "crypto", "EventEmitter", "debug", "_", "bluebird",
   "Script", "wrapError", "module", "require", "exports", "process", "global"]

/-- `Script._setupDomainHandlers(domain, scriptContext, events, doneCallback)`:
after registering the `addCallback`/`finishCallback`/`error` listeners and the
`$addCallback`/`$finishCallback` hooks (no effect observable yet), it
evaluates `if (fn)`.  Resolving the identifier `fn` against the scope throws
`ReferenceError: fn is not defined` when it is absent. -/
def setupDomainHandlers (_domain : Domain) : Except JsErr Unit :=
  if setupDomainHandlersScope.contains "fn" then Except.ok ()
  else Except.error (.refErr "fn")

/-- The observable outcome of one `Script.run(ctx, domain, fn)` call:
each invocation of the completion callback `fn` in order (with its error
argument), the rejection of the promise the `async` method returns (if it
threw), and the ids of the hook statements that ran. -/
structure RunResult where
  onDoneCalls : List (Option JsErr)
  rejection : Option JsErr
  executed : List Nat
  deriving Repr, DecidableEq

/-- The tail of `run` once the hook body may execute: the body runs
synchronously inside `try`/`catch` (a caught value is kept as
`scriptContext._error`; `_wrapError` only repairs prototypes and is the
identity on the value).  On the next tick the locals `waitingForCallback`
(never set to true anywhere — the domain handlers mutate
`scriptContext.waitingForCallback` instead) and `callbackCount` (likewise
only `scriptContext.callbackCount` is ever touched) still hold `false`/`0`,
so `!waitingForCallback && callbackCount <= 0` holds and
`doneCallback(finalError)` fires exactly once. -/
def runBody (hook : List HookStmt) : RunResult :=
  let r := execHook hook
  let waitingForCallback := false
  let callbackCount : Nat := 0
  if !waitingForCallback && callbackCount ≤ 0 then ⟨[r.2], none, r.1⟩
  else ⟨[], none, r.1⟩

/-- `Script.run(ctx, domain, fn)` with a callback provided.  `scriptError`
models `this.error` (a stored permanent load/compile error).  When a domain
is passed, `_setupDomainHandlers` is called outside any `try`: the
`ReferenceError` it throws escapes the `async` method, so the returned
promise rejects, the hook body never runs, and `fn` is never invoked. -/
def scriptRun (scriptError : Option JsErr) (domain : Option Domain)
    (hook : List HookStmt) : RunResult :=
  match scriptError with
  | some e => ⟨[some e], none, []⟩
  | none =>
    match domain with
    | some d =>
      match setupDomainHandlers d with
      | .error e => ⟨[], some e, []⟩
      | .ok _ => runBody hook
    | none => runBody hook

/-! ## Session registry (`lib/session.js`)

### Idle-session sweep and its trigger
(`SessionStore.prototype.cleanupInactiveSessions`, `createSession` lines
284–290)

The removal-relevant state: the module-scope `sessionIndex` (sid with its
`data.lastActive`), which sids have a non-empty `socketIndex` entry, the
`lastRun` property stored on the `cleanupInactiveSessions` function object
(absent until the sweep body first runs), the store's `sessionCount`, and a
counter of sweep-body executions.  `createSession`'s other effects only add
or touch index entries; the sweep is the only idle-removal path. -/

structure SessEntry where
  sid : String
  lastActive : Nat
  deriving Repr, DecidableEq

structure StoreState where
  sessionIdx : List SessEntry
  socketSids : List String
  lastRun : Option Nat
  sessionCount : Nat
  sweepRuns : Nat
  deriving Repr, DecidableEq

/-- Stable ascending insertion by `lastActive`
(for `sort((a, b) => a.lastActive - b.lastActive)`). -/
def insertByActive (e : SessEntry) : List SessEntry → List SessEntry
  | [] => [e]
  | x :: xs =>
    if e.lastActive ≤ x.lastActive then e :: x :: xs
    else x :: insertByActive e xs

def sortByActive : List SessEntry → List SessEntry
  | [] => []
  | x :: xs => insertByActive x (sortByActive xs)

/-- The idle-timeout path of the sweep: sessions whose `lastActive` is older
than `now - sessionTimeout` and whose `socketIndex` entry is empty
(`session.data.lastActive < timeoutThreshold && _.isEmpty(this.socketIndex[sid])`). -/
def idleCandidates (st : StoreState) (now timeout : Nat) : List String :=
  (st.sessionIdx.filter
    (fun s => s.lastActive + timeout < now && !(st.socketSids.contains s.sid))).map
    (fun s => s.sid)

/-- The over-limit path: when `sessionCount > maxSessions`, the oldest
sessions by `lastActive` (stable ascending sort, first
`sessionCount - maxSessions` of them), regardless of socket binding. -/
def overLimitCandidates (st : StoreState) (maxSessions : Nat) : List String :=
  if maxSessions < st.sessionCount then
    ((sortByActive st.sessionIdx).take (st.sessionCount - maxSessions)).map
      (fun s => s.sid)
  else []

/-- The body of `cleanupInactiveSessions`: both candidate lists are removed
from memory (`removeSessionFromMemory` also drops the socket binding),
`sessionCount` is recomputed, the best-effort persistent-store `remove` is a
store-side effect only, and `lastRun` is stamped with `now`. -/
def cleanupSweep (st : StoreState) (now timeout maxSessions : Nat) : StoreState :=
  let inactive := idleCandidates st now timeout ++ overLimitCandidates st maxSessions
  let idx := st.sessionIdx.filter (fun s => !(inactive.contains s.sid))
  let socks := st.socketSids.filter (fun sid => !(inactive.contains sid))
  ⟨idx, socks, some now, idx.length, st.sweepRuns + 1⟩

/-- The guard `this.cleanupInactiveSessions.lastRun < Date.now() - 60 * 1000`
in `createSession`.  While the property is still absent the comparison is
`undefined < n`, which is false in JS. -/
def cleanupDue (lastRun : Option Nat) (now : Nat) : Bool :=
  match lastRun with
  | none => false
  | some l => l + 60000 < now

/-- The cleanup scheduling done by one `createSession` call at time `now`
(the `process.nextTick` deferral does not change which sweep runs). -/
def createSessionCleanupHook (timeout maxSessions : Nat) (st : StoreState)
    (now : Nat) : StoreState :=
  if cleanupDue st.lastRun now then cleanupSweep st now timeout maxSessions
  else st

/-- The cleanup-relevant effect of a sequence of `createSession` calls at the
given times. -/
def runCreateSessionHooks (timeout maxSessions : Nat) :
    StoreState → List Nat → StoreState
  | st, [] => st
  | st, t :: ts =>
    runCreateSessionHooks timeout maxSessions
      (createSessionCleanupHook timeout maxSessions st t) ts

/-!
### Cached-session fast path (`createSession` lines 239–250)

For a sid whose session is in `sessionIndex` and fresh
(`lastActive >= Date.now() - maxAge`), `createSession` serves it from memory,
refreshing and persisting `lastActive` (via `cached.save`, one store write)
only when the session is not anonymous and `lastActive` is falsy or older
than ten seconds. -/

structure SessData where
  anonymous : Bool
  lastActive : Nat
  deriving Repr, DecidableEq

/-- The fast-path guard `cached.data.lastActive >= Date.now() - maxAge`. -/
def fastPathFresh (d : SessData) (now maxAge : Nat) : Bool :=
  now ≤ d.lastActive + maxAge

/-- `!cached.data.anonymous && (!cached.data.lastActive ||
cached.data.lastActive < Date.now() - 10 * 1000)` (a `0` timestamp is
falsy). -/
def shouldTouch (d : SessData) (now : Nat) : Bool :=
  !d.anonymous && (d.lastActive = 0 || d.lastActive + 10000 < now)

/-- One fast-path resolution at time `now`: whether a persistence write
(`cached.save`) was issued, and the session data afterwards. -/
def resolveCachedFresh (d : SessData) (now : Nat) : Bool × SessData :=
  if shouldTouch d now then (true, ⟨d.anonymous, now⟩) else (false, d)

/-!
### `Session.prototype.save` -/

/-- The `id` field of a session's data: absent, a string, or some non-string
value (a number stands in for any non-string). -/
inductive IdVal where
  | missing
  | str (s : String)
  | numId (n : Int)
  deriving Repr, DecidableEq

/-- `typeof data.id === 'string'`. -/
def IdVal.isStringId : IdVal → Bool
  | .str _ => true
  | _ => false

structure SaveData where
  anonymous : Bool
  id : IdVal
  uid : Option String
  deriving Repr, DecidableEq

/-- The in-memory indices `save` may touch: the keys of the module-scope
`sessionIndex`, and the `(uid, sid)` entries of `userSessionIndex`. -/
structure MemIndexes where
  sessionIds : List String
  userIds : List (String × String)
  deriving Repr, DecidableEq

inductive StoreOp where
  | insertOp (id : String)
  | updateOp (id : String)
  deriving Repr, DecidableEq

def addUnique (l : List String) (s : String) : List String :=
  if l.contains s then l else l ++ [s]

def addUniquePair (l : List (String × String)) (p : String × String) :
    List (String × String) :=
  if l.contains p then l else l ++ [p]

/-- `Session.prototype.save(fn)` with a successful store, returning the
callback invocation (`none` when no branch calls `fn` — the empty-string sid
hole), the store operations issued, and the updated in-memory indices.
An anonymous session first receives `freshId` (`createUniqueIdentifier()`
returns a uuid string) as its id; then `typeof data.id !== 'string'` returns
the `'Invalid session ID'` error before any store call; otherwise the
insert/update branch runs and indexes the session. -/
def sessionSave (d : SaveData) (idx : MemIndexes) (freshId : String) :
    Option (Except String Unit) × List StoreOp × MemIndexes :=
  if d.anonymous then
    (some (Except.ok ()), [.insertOp freshId],
      ⟨addUnique idx.sessionIds freshId,
       match d.uid with
       | some u => addUniquePair idx.userIds (u, freshId)
       | none => idx.userIds⟩)
  else
    match d.id with
    | .str sid =>
      if sid = "" then (none, [], idx)
      else
        (some (Except.ok ()), [.updateOp sid],
          ⟨addUnique idx.sessionIds sid,
           match d.uid with
           | some u => addUniquePair idx.userIds (u, sid)
           | none => idx.userIds⟩)
    | _ => (some (Except.error "Invalid session ID"), [], idx)

/-! ## Supporting lemmas -/

theorem insertBySpec_perm (r : Resource) (l : List Resource) :
    (insertBySpec r l).Perm (r :: l) := by
  induction l with
  | nil => simp [insertBySpec]
  | cons x xs ih =>
    by_cases h : specificness x ≤ specificness r
    · simp [insertBySpec, h]
    · simp only [insertBySpec, if_neg h]
      exact (ih.cons x).trans (List.Perm.swap r x xs)

theorem sortBySpec_perm (l : List Resource) : (sortBySpec l).Perm l := by
  induction l with
  | nil => simp [sortBySpec]
  | cons x xs ih => exact (insertBySpec_perm x (sortBySpec xs)).trans (ih.cons x)

theorem insertBySpec_pairwise {r : Resource} {l : List Resource}
    (h : l.Pairwise (fun a b => specificness b ≤ specificness a)) :
    (insertBySpec r l).Pairwise (fun a b => specificness b ≤ specificness a) := by
  induction l with
  | nil => simp [insertBySpec]
  | cons x xs ih =>
    rcases List.pairwise_cons.mp h with ⟨hx, hxs⟩
    by_cases hle : specificness x ≤ specificness r
    · simp only [insertBySpec, if_pos hle]
      refine List.pairwise_cons.mpr ⟨?_, h⟩
      intro y hy
      rcases List.mem_cons.mp hy with hyx | hyxs
      · exact hyx ▸ hle
      · exact (hx y hyxs).trans hle
    · simp only [insertBySpec, if_neg hle]
      refine List.pairwise_cons.mpr ⟨?_, ih hxs⟩
      intro y hy
      rcases List.mem_cons.mp ((insertBySpec_perm r xs).mem_iff.mp hy) with hyr | hyxs
      · exact hyr ▸ Nat.le_of_not_le hle
      · exact hx y hyxs

theorem sortBySpec_pairwise (l : List Resource) :
    (sortBySpec l).Pairwise (fun a b => specificness b ≤ specificness a) := by
  induction l with
  | nil => simp [sortBySpec]
  | cons x xs ih => exact insertBySpec_pairwise ih

theorem insertBySpec_filter_key (k : Nat) (r : Resource) (l : List Resource) :
    (insertBySpec r l).filter (fun x => specificness x = k) =
      if specificness r = k then r :: l.filter (fun x => specificness x = k)
      else l.filter (fun x => specificness x = k) := by
  induction l with
  | nil =>
    by_cases hrk : specificness r = k <;>
      simp [insertBySpec, List.filter, hrk]
  | cons x xs ih =>
    simp only [insertBySpec]
    by_cases hle : specificness x ≤ specificness r
    · rw [if_pos hle]
      by_cases hrk : specificness r = k
      · by_cases hxk : specificness x = k <;>
          simp [List.filter_cons, hrk, hxk]
      · by_cases hxk : specificness x = k <;>
          simp [List.filter_cons, hrk, hxk]
    · rw [if_neg hle]
      by_cases hrk : specificness r = k
      · have hxk : ¬ specificness x = k := by omega
        simp [List.filter_cons, hxk, ih, hrk]
      · by_cases hxk : specificness x = k <;>
          simp [List.filter_cons, hxk, ih, hrk]

theorem sortBySpec_filter_key (k : Nat) (l : List Resource) :
    (sortBySpec l).filter (fun x => specificness x = k) =
      l.filter (fun x => specificness x = k) := by
  induction l with
  | nil => simp [sortBySpec]
  | cons x xs ih =>
    by_cases hx : specificness x = k <;>
      simp [sortBySpec, insertBySpec_filter_key, hx, ih, List.filter_cons]

theorem lexPattern_escape {cs : List Char} (h : '*' ∉ cs) :
    lexPattern (escapeRegex cs) = cs.map RegexTok.ch := by
  induction cs with
  | nil => rfl
  | cons c cs ih =>
    have hc : c ≠ '*' := fun e => h (e ▸ List.mem_cons_self c cs)
    have h' : '*' ∉ cs := fun m => h (List.mem_cons_of_mem c m)
    by_cases hs : regexSpecial c
    · simp [escapeRegex, hs, lexPattern, ih h']
    · have hb : c ≠ '\\' := by
        intro e
        rw [e] at hs
        exact hs (by decide)
      simp only [escapeRegex, if_neg hs, List.singleton_append]
      unfold lexPattern
      simp [hb, hc, ih h']

theorem groupAtoms_map_ch (cs : List Char) :
    groupAtoms (cs.map RegexTok.ch) = cs.map RegexAtom.lit := by
  induction cs with
  | nil => rfl
  | cons c cs ih =>
    cases cs with
    | nil => rfl
    | cons d ds => simpa [groupAtoms] using ih

theorem matchFrom_map_lit (ks : List Char) :
    ∀ us, matchFrom (ks.map RegexAtom.lit) us = litMatch ks us := by
  induction ks with
  | nil => intro us; cases us <;> rfl
  | cons k ks ih =>
    intro us
    cases us with
    | nil => rfl
    | cons u us => simp [matchFrom, litMatch, ih]

theorem pathMatches_eq_claim {p : String} (h : '*' ∉ p.toList) (url : String) :
    pathMatches p url = claimMatches p url := by
  have hk : '*' ∉ (regexKey p).toList := by
    unfold regexKey
    split
    · simp
    · exact h
  unfold pathMatches claimMatches pathAtoms
  rw [lexPattern_escape hk, groupAtoms_map_ch, matchFrom_map_lit]

theorem matchResourcesPure_claim_filter (resources : List Resource) (url : String)
    (h : ∀ r ∈ resources, '*' ∉ r.path.toList) :
    matchResourcesPure resources url =
      sortBySpec (resources.filter (fun r => claimMatches r.path url)) := by
  unfold matchResourcesPure
  congr 1
  exact List.filter_congr (fun r hr => by rw [pathMatches_eq_claim (h r hr)])

theorem execHook_basic_append (pre : List Nat) (l : List HookStmt) :
    execHook (pre.map HookStmt.basic ++ l) = (pre ++ (execHook l).1, (execHook l).2) := by
  induction pre with
  | nil => simp [execHook]
  | cons i is ih => simp [execHook, ih]

/-! ## Claims -/

/-- C1: the claim states that `Script.run` with a domain of wrapped async
functions fires `onDone` exactly once, after all dispatched operations
settle.  In the code, `_setupDomainHandlers` evaluates `if (fn)` where `fn`
is a local of `run` and not in scope, so for every run with a domain the
method throws `ReferenceError: fn is not defined` before the hook body runs:
the returned promise rejects, and the completion callback fires zero times —
never once. -/
theorem script_run_with_domain_never_fires_onDone (f1 f2 : String)
    (rest : List String) (hook : List HookStmt) :
    scriptRun none (some (Domain.mk (f1 :: f2 :: rest))) hook =
      RunResult.mk [] (some (JsErr.refErr "fn")) [] := by
  rfl

/-- C2: the claim states that the periodic sweep eventually removes every
idle, socketless session.  In the code the sweep is only scheduled from
`createSession` behind `cleanupInactiveSessions.lastRun < Date.now() - 60000`,
and `lastRun` is undefined until the sweep body first runs — so the guard is
always false, the sweep never executes, and no session is ever evicted:
after any sequence of `createSession` calls the removal-relevant state is
untouched (`sweepRuns` stays 0, the index keeps every entry). -/
theorem cleanup_sweep_never_scheduled (idx : List SessEntry) (socks : List String)
    (count : Nat) (timeout maxSessions : Nat) (times : List Nat) :
    runCreateSessionHooks timeout maxSessions
        (StoreState.mk idx socks none count 0) times =
      StoreState.mk idx socks none count 0 := by
  induction times with
  | nil => rfl
  | cons t ts ih =>
    simpa [runCreateSessionHooks, createSessionCleanupHook, cleanupDue] using ih

/-- C3: the claim states that `cancelIf(true, "nope", 403)` makes completion
report an error with status 403 and stops the hook body.  In the code
`_cancel` evaluates `this.done(err)` on a `Script` that has no `done` method,
so a `TypeError` (carrying no status code) is what propagates: the rest of
the hook body indeed never runs, but the completion callback receives the
TypeError, not the synthesized 403 error. -/
theorem cancelIf_reports_typeError_not_status (pre : List Nat)
    (post : List HookStmt) :
    scriptRun none none
        (pre.map HookStmt.basic ++
          HookStmt.cancelIf true (.str "nope") (some 403) :: post) =
      RunResult.mk [some (JsErr.typeErr "this.done is not a function")] none pre ∧
    JsErr.statusOf (.typeErr "this.done is not a function") ≠ some 403 := by
  refine ⟨?_, by simp [JsErr.statusOf]⟩
  simp [scriptRun, runBody, execHook_basic_append, execHook, cancelThrown,
    synthCancelErr, scriptMethods]

/-- C5: the claim states that two runs exposing the same ordered set of
variable names reuse the same compiled callable (compilation at most once per
signature).  lodash's `_.memoize` keys its map by the identity of the
`functionArgs` array, and `runWithContext` allocates a fresh array on every
call, so the cache never hits: two runs with an identical signature compile
twice and leave two cache entries holding the same signature. -/
theorem script_recompiles_every_run (contextKeys : List String) :
    (runWithContextCompile contextKeys
        (runWithContextCompile contextKeys ScriptCacheState.init)).compileCount = 2 ∧
    (runWithContextCompile contextKeys
        (runWithContextCompile contextKeys ScriptCacheState.init)).cache =
      [(0, contextKeys.filter (fun k => k ≠ "this")),
       (1, contextKeys.filter (fun k => k ≠ "this"))] := by
  simp [runWithContextCompile, ScriptCacheState.init, memoHas]

/-- C6: a non-anonymous cached session resolved twice within ten seconds
issues at most one persistence write, and a resolution more than ten seconds
after the last persisted touch always writes. -/
theorem session_touch_throttled (d : SessData) (maxAge t0 t1 : Nat)
    (ha : d.anonymous = false) (h0 : 0 < t0) (h01 : t0 ≤ t1)
    (h10 : t1 ≤ t0 + 10000)
    (_hf0 : fastPathFresh d t0 maxAge = true)
    (_hf1 : fastPathFresh (resolveCachedFresh d t0).2 t1 maxAge = true) :
    ((resolveCachedFresh d t0).1.toNat +
      (resolveCachedFresh (resolveCachedFresh d t0).2 t1).1.toNat ≤ 1) ∧
    (∀ lastTouch t2 : Nat, lastTouch + 10000 < t2 →
      (resolveCachedFresh (SessData.mk false lastTouch) t2).1 = true) := by
  constructor
  · by_cases hw : shouldTouch d t0
    · have hw2 : shouldTouch (SessData.mk d.anonymous t0) t1 = false := by
        simp [shouldTouch, ha]
        omega
      simp [resolveCachedFresh, hw, hw2]
    · simp only [resolveCachedFresh, if_neg hw, Bool.toNat_false]
      cases hsnd : (if shouldTouch d t1 then (true, SessData.mk d.anonymous t1)
        else (false, d)).1 <;> simp
  · intro lastTouch t2 h2
    have hc : shouldTouch (SessData.mk false lastTouch) t2 = true := by
      simp [shouldTouch]
      omega
    simp [resolveCachedFresh, hc]

/-- C6 witness: a concrete non-anonymous cached session, two resolutions
5 seconds apart. -/
theorem session_touch_throttled_witness :
    (SessData.mk false 5000).anonymous = false ∧ 0 < 20000 ∧
    (20000 : Nat) ≤ 25000 ∧ (25000 : Nat) ≤ 20000 + 10000 ∧
    fastPathFresh (SessData.mk false 5000) 20000 1000000 = true ∧
    fastPathFresh (resolveCachedFresh (SessData.mk false 5000) 20000).2
      25000 1000000 = true ∧
    ((resolveCachedFresh (SessData.mk false 5000) 20000).1.toNat +
      (resolveCachedFresh
        (resolveCachedFresh (SessData.mk false 5000) 20000).2 25000).1.toNat ≤ 1) :=
  ⟨rfl, by decide, by decide, by decide, by decide, by decide,
    (session_touch_throttled (SessData.mk false 5000) 1000000 20000 25000 rfl
      (by decide) (by decide) (by decide) (by decide) (by decide)).1⟩

/-- C9: saving a non-anonymous session whose id is not a string reports
`'Invalid session ID'` through the callback and issues no store operation,
leaving the in-memory indices unchanged. -/
theorem session_save_invalid_id (idx : MemIndexes) (uid : Option String)
    (v : IdVal) (freshId : String) (h : v.isStringId = false) :
    sessionSave (SaveData.mk false v uid) idx freshId =
      (some (Except.error "Invalid session ID"), [], idx) := by
  cases v with
  | missing => rfl
  | str s => simp [IdVal.isStringId] at h
  | numId n => rfl

/-- C9 witness: a session with a numeric id. -/
theorem session_save_invalid_id_witness :
    (IdVal.numId 7).isStringId = false ∧
    sessionSave (SaveData.mk false (IdVal.numId 7) none) (MemIndexes.mk [] []) "u1" =
      (some (Except.error "Invalid session ID"), [], MemIndexes.mk [] []) :=
  ⟨rfl, session_save_invalid_id (MemIndexes.mk [] []) none (IdVal.numId 7) "u1" rfl⟩

/-! ## Context completion idempotence (C8) -/

theorem setIfAbsent_ended (res : ResState) (k v : String) :
    (setIfAbsent res k v).ended = res.ended := by
  unfold setIfAbsent
  split <;> rfl

theorem ctxSetHeaders_ended (sc : Int) (b ct : String) (res : ResState) :
    (ctxSetHeaders sc b ct res).ended = res.ended := by
  unfold ctxSetHeaders
  split <;> simp [setIfAbsent_ended]

theorem resEnd_ended {res : ResState} (h : res.ended = false) (b : Option String) :
    (resEnd res b).ended = true := by
  simp [resEnd, h]

theorem dohRespond_ended {res : ResState} (h : res.ended = false) (v : Thrown) :
    (dohRespond v res).ended = true := by
  unfold dohRespond
  rw [if_neg (by simp [h])]
  split
  · exact resEnd_ended h _
  · exact resEnd_ended (by simp [h]) _

theorem ctxDone_of_ended {res : ResState} (h : res.ended = true)
    (err : Option Thrown) (resp : DonePayload) : ctxDone err resp res = res := by
  unfold ctxDone
  rw [if_pos h]

theorem ctxDone_ended {res : ResState} (h : res.ended = false)
    (err : Option Thrown) (resp : DonePayload) : (ctxDone err resp res).ended = true := by
  unfold ctxDone
  rw [if_neg (by simp [h])]
  cases err with
  | some e => exact dohRespond_ended (by simp [h]) e
  | none =>
    cases resp with
    | obj s =>
      cases s with
      | some s => simp [apply_ite ResState.ended, resEnd, ctxSetHeaders_ended, h]
      | none => simp [apply_ite ResState.ended, resEnd, ctxSetHeaders_ended, h]
    | prim s => simp [apply_ite ResState.ended, resEnd, ctxSetHeaders_ended, h]

/-- C8: `Context.done` is effective at most once — a second `done` call on
the same context changes no response state, whatever the arguments of either
call: the first call always ends the response, and `done` on a finished
response returns without touching it. -/
theorem context_done_idempotent (res : ResState) (err1 : Option Thrown)
    (p1 : DonePayload) (err2 : Option Thrown) (p2 : DonePayload) :
    ctxDone err2 p2 (ctxDone err1 p1 res) = ctxDone err1 p1 res := by
  by_cases h : res.ended = true
  · rw [ctxDone_of_ended h err1 p1, ctxDone_of_ended h err2 p2]
  · exact ctxDone_of_ended
      (ctxDone_ended (Bool.not_eq_true _ ▸ h) err1 p1) err2 p2

/-! ## Router cache refinement (C10) -/

/-- The cache invariant: every stored entry is the fresh computation for its
URL, and the cache is within its bound. -/
def cacheOK (resources : List Resource) (st : RouterState) : Prop :=
  (∀ p ∈ st.routeCache, p.2 = matchResourcesPure resources p.1) ∧
    st.routeCache.length ≤ 1000

theorem cacheLookup_mem {cache : List (String × List Resource)} {url : String}
    {v : List Resource} (h : cacheLookup cache url = some v) : (url, v) ∈ cache := by
  induction cache with
  | nil => simp [cacheLookup] at h
  | cons p rest ih =>
    rcases p with ⟨u, w⟩
    by_cases hu : u = url
    · subst hu
      rw [cacheLookup, if_pos rfl] at h
      exact Option.some_inj.mp h ▸ List.mem_cons_self _ _
    · rw [cacheLookup, if_neg hu] at h
      exact List.mem_cons_of_mem _ (ih h)

theorem matchResourcesStep_ok {resources : List Resource} {st : RouterState}
    (url : String) (h : cacheOK resources st) :
    (matchResourcesStep resources st url).1 = matchResourcesPure resources url ∧
    cacheOK resources (matchResourcesStep resources st url).2 := by
  unfold matchResourcesStep
  by_cases hres : resources.length = 0
  · rw [if_pos hres]
    have : resources = [] := List.length_eq_zero.mp hres
    subst this
    exact ⟨by simp [matchResourcesPure, sortBySpec], h⟩
  · rw [if_neg hres]
    have h1 : cacheOK resources
        (if st.lastResourceUpdate ≠ resources.length
         then RouterState.mk [] resources.length else st) := by
      split
      · exact ⟨by simp, by simp⟩
      · exact h
    set st1 := (if st.lastResourceUpdate ≠ resources.length
      then RouterState.mk [] resources.length else st) with hst1
    cases hc : cacheLookup st1.routeCache url with
    | some v =>
      simp only [hc]
      exact ⟨h1.1 _ (cacheLookup_mem hc), h1⟩
    | none =>
      simp only [hc]
      by_cases hlen : st1.routeCache.length < 1000
      · rw [if_pos hlen]
        refine ⟨rfl, ⟨?_, ?_⟩⟩
        · intro p hp
          rcases List.mem_append.mp hp with hm | hm
          · exact h1.1 p hm
          · rcases List.mem_singleton.mp hm with rfl
            rfl
        · simp only [List.length_append, List.length_singleton]
          omega
      · rw [if_neg hlen]
        exact ⟨rfl, h1⟩

theorem runMatches_ok {resources : List Resource} {st : RouterState}
    (urls : List String) (h : cacheOK resources st) :
    (runMatches resources st urls).1 = urls.map (matchResourcesPure resources) ∧
    cacheOK resources (runMatches resources st urls).2 := by
  induction urls generalizing st with
  | nil => exact ⟨rfl, h⟩
  | cons u us ih =>
    have hstep := matchResourcesStep_ok u h
    have hrest := ih hstep.2
    simp only [runMatches, List.map_cons]
    exact ⟨by rw [hstep.1, hrest.1], hrest.2⟩

/-- C10: against an unmodified resources array, every `matchResources` call —
cache hit or miss — returns exactly the list obtained by filtering and
sorting afresh, and the URL-result cache never exceeds 1000 entries. -/
theorem match_cache_consistent_and_bounded (resources : List Resource)
    (urls : List String) :
    (runMatches resources RouterState.init urls).1 =
      urls.map (matchResourcesPure resources) ∧
    (runMatches resources RouterState.init urls).2.routeCache.length ≤ 1000 := by
  have h := @runMatches_ok resources RouterState.init urls
    ⟨by simp [RouterState.init], by simp [RouterState.init]⟩
  exact ⟨h.1, h.2.2⟩

/-! ## Router error propagation (C4) -/

theorem routeErrorStatus_eq (v : Thrown) :
    dohStatus (wrapThrown v) (catchStatusCode (wrapThrown v)) = amendedStatus v := by
  rcases v with ⟨isErr, msg, sc, st⟩
  cases isErr with
  | false =>
    simp [wrapThrown, amendedStatus, dohStatus, catchStatusCode, normalizeStatus,
      effStatus, jsOrNum, truthyNum]
  | true =>
    simp only [wrapThrown, amendedStatus, dohStatus, catchStatusCode,
      normalizeStatus, effStatus, jsOrNum, truthyNum, if_true]
    rcases sc with _ | n
    · rcases st with _ | m
      · simp
      · by_cases h0 : m = 0
        · simp [h0]
        · by_cases hr : 400 ≤ m ∧ m < 600
          · simp only [h0, ite_false, if_pos hr]
            split_ifs <;> omega
          · simp only [h0, ite_false, if_neg hr]
            split_ifs <;> omega
    · by_cases hn : n = 0
      · simp only [hn, ite_true]
        rcases st with _ | m
        · simp
        · by_cases h0 : m = 0
          · simp [h0]
          · by_cases hr : 400 ≤ m ∧ m < 600
            · simp only [h0, ite_false, if_pos hr]
              split_ifs <;> omega
            · simp only [h0, ite_false, if_neg hr]
              split_ifs <;> omega
      · simp only [hn, ite_false]
        by_cases hr : 400 ≤ n ∧ n < 600
        · simp only [if_pos hr]
          split_ifs <;> omega
        · simp only [if_neg hr]
          split_ifs <;> omega

/-- C4 counterexample: a candidate that throws the plain (non-Error) object
`\x7b message: 'nope', statusCode: 403 \x7d` is claimed to reach the error
responder with status 403; the router's catch block instead replaces every
non-Error value with a fresh object whose `statusCode` is 500 (and whose
message is the `String(...)` rendering `"[object Object]"`), so the responder
reports 500, not 403. -/
theorem router_plain_object_statusCode_ignored :
    routeCandidates [.throwErr (Thrown.mk false "nope" (some 403) none)] =
      (.errorResponse 500 (Thrown.mk false "[object Object]" (some 500) none), 1) ∧
    (500 : Int) ≠ 403 := by
  decide

/-- C4 (amended): when a candidate throws synchronously or its asynchronous
work rejects, the router invokes no further candidates and hands the wrapped
value to the error responder; the reported status is the thrown value's
`statusCode` (or `status`) when the value is an Error instance carrying a
code in 400..599, and 500 in every other case — in particular a non-Error
thrown value (even one carrying a `statusCode`) is replaced by a 500-status
wrapper. -/
theorem router_error_stops_and_maps_status (nexts : Nat) (v : Thrown)
    (rest : List HandlerOutcome) :
    routeCandidates (List.replicate nexts .next ++ .throwErr v :: rest) =
      (.errorResponse (amendedStatus v) (wrapThrown v), nexts + 1) := by
  induction nexts with
  | zero => simp [routeCandidates, routeErrorStatus_eq]
  | succ n ih => simp [List.replicate_succ, routeCandidates, ih]

/-! ## Candidate matching and ordering (C7) -/

/-- C7 counterexample: the claim says the candidate list contains exactly the
resources whose base path matches the URL under the literal
`^base(?:[/?].*)?$` semantics.  `generateRegex` escapes every regex
metacharacter except `*`, so for the base path `"/a*"` the compiled regex is
`^/a*(?:[/?].*)?$` — in which `*` quantifies `a` — and the URL `"/a"` is
matched and routed to that resource even though it does not match under the
claimed semantics. -/
theorem match_star_path_breaks_claimed_semantics :
    matchResourcesPure [Resource.mk "/a*"] "/a" = [Resource.mk "/a*"] ∧
    claimMatches "/a*" "/a" = false := by
  decide

/-- C7 (amended): for every resource set whose base paths contain no `*`
(the one metacharacter `generateRegex` leaves unescaped) and every URL, the
candidate list is exactly the resources matching under the claimed
`^base(?:[/?].*)?$` semantics, ordered by specificity descending, with ties
keeping the original registration order (stable sort) — in particular, with
resources at `/a` and `/a/b`, a request to `/a/b/c` tries `/a/b` before
`/a`. -/
theorem match_candidates_sorted_stable (resources : List Resource) (url : String)
    (h : ∀ r ∈ resources, '*' ∉ r.path.toList) :
    matchResourcesPure resources url =
      sortBySpec (resources.filter (fun r => claimMatches r.path url)) ∧
    (matchResourcesPure resources url).Pairwise
      (fun a b => specificness b ≤ specificness a) ∧
    (∀ k : Nat, (matchResourcesPure resources url).filter
        (fun r => specificness r = k) =
      (resources.filter (fun r => claimMatches r.path url)).filter
        (fun r => specificness r = k)) ∧
    (matchResourcesPure resources url).Perm
      (resources.filter (fun r => claimMatches r.path url)) := by
  have he := matchResourcesPure_claim_filter resources url h
  refine ⟨he, ?_, ?_, ?_⟩
  · unfold matchResourcesPure
    exact sortBySpec_pairwise _
  · intro k
    rw [he, sortBySpec_filter_key]
  · rw [he]
    exact sortBySpec_perm _

/-- C7 witness: resources at `/a` and `/a/b` (no `*` anywhere), request URL
`/a/b/c`; the theorem applies, and the resulting candidate list is
`[/a/b, /a]` — more specific first. -/
theorem match_candidates_sorted_stable_witness :
    (∀ r ∈ [Resource.mk "/a", Resource.mk "/a/b"], '*' ∉ r.path.toList) ∧
    matchResourcesPure [Resource.mk "/a", Resource.mk "/a/b"] "/a/b/c" =
      sortBySpec ([Resource.mk "/a", Resource.mk "/a/b"].filter
        (fun r => claimMatches r.path "/a/b/c")) ∧
    matchResourcesPure [Resource.mk "/a", Resource.mk "/a/b"] "/a/b/c" =
      [Resource.mk "/a/b", Resource.mk "/a"] :=
  ⟨by intro r hr; fin_cases hr <;> decide,
   (match_candidates_sorted_stable [Resource.mk "/a", Resource.mk "/a/b"] "/a/b/c"
     (by intro r hr; fin_cases hr <;> decide)).1,
   by decide⟩

end Deployd
